import Mathlib

/-
Verification of the core of the 2ch_delay_sum_cpp audio pipeline.

The development shallowly embeds the C++ sources:
  * src/circular_buffer.{h,cpp}  — the bounded sample channel (CircularBuffer)
  * src/audio_capture.cpp        — the capture stage loop (channel interaction)
  * src/alsa_output.cpp          — the output stage loop (channel interaction)
  * src/error_handler.{h,cpp}    — the error registry and watchdog
  * src/beamformer.cpp           — the steering-delay table

Machine integers (size_t) are modelled as Nat with explicit reduction
modulo 2^64 where the C++ arithmetic can wrap.  The sample store of the
channel (a std::vector<int16_t> whose every access is masked into range)
is modelled as a total map Nat → Int; samples are only copied, never
computed with, so Int is a faithful carrier for int16_t values.
Mutexes and condition variables are modelled explicitly where they are
observable in a single thread of execution: a condition-variable wait
that no concurrent thread can ever satisfy is modelled as `none`
(the call never returns), and acquiring an already-held non-recursive
mutex from the same thread is likewise modelled as non-completion.
-/

namespace DelaySum

/-- Modulus of the C++ `size_t` type (64-bit target). -/
def SIZE_T_MOD : Nat := 2 ^ 64

/-- Wrapping subtraction `a - b` on `size_t` operands. -/
def subSizeT (a b : Nat) : Nat := (a + (SIZE_T_MOD - b % SIZE_T_MOD)) % SIZE_T_MOD

/-- State of a `CircularBuffer` (src/circular_buffer.h, lines 10-38).
The std::vector sample store is a total map from index to sample value;
the C++ code masks every index into `[0, bufferSize)` before access. -/
@[ext]
structure CircularBuffer where
  buffer : Nat → Int
  readPos : Nat
  writePos : Nat
  bufferSize : Nat
  bufferMask : Nat
  closed : Bool

/-- Single store `buffer[i] = v` into the sample map. -/
def setAt (buf : Nat → Int) (i : Nat) (v : Int) : Nat → Int :=
  fun q => if q = i then v else buf q

/-- The store loop of `CircularBuffer::write` (circular_buffer.cpp, lines 41-43):
`buffer[(pos + i) & mask] = chunk[i]` for each `i`, expressed by walking
`pos` forward one slot per element. -/
def storeChunk (buf : Nat → Int) (pos mask : Nat) : List Int → (Nat → Int)
  | [] => buf
  | c :: cs => storeChunk (setAt buf (pos &&& mask) c) (pos + 1) mask cs

/-- The copy-out loop of `CircularBuffer::read` (circular_buffer.cpp, lines 72-74):
element `i` of the result is `buffer[(pos + i) & mask]`. -/
def loadChunk (buf : Nat → Int) (pos mask : Nat) : Nat → List Int
  | 0 => []
  | n + 1 => buf (pos &&& mask) :: loadChunk buf (pos + 1) mask n

/-- `CircularBuffer::availableRead` (circular_buffer.cpp, lines 94-96):
`(writePos - readPos) & bufferMask` with size_t wraparound. -/
def availableRead (s : CircularBuffer) : Nat :=
  subSizeT s.writePos s.readPos &&& s.bufferMask

/-- `CircularBuffer::availableWrite` (circular_buffer.cpp, lines 98-100):
`bufferSize - 1 - availableRead()`. -/
def availableWrite (s : CircularBuffer) : Nat :=
  s.bufferSize - 1 - availableRead s

/-- One pass of the body of the write loop (circular_buffer.cpp, lines 40-46):
store `chunk` starting at the write cursor, then advance the cursor by
`chunk.length`, masked. -/
def writeChunk (s : CircularBuffer) (chunk : List Int) : CircularBuffer :=
  { s with
    buffer := storeChunk s.buffer s.writePos s.bufferMask chunk
    writePos := (s.writePos + chunk.length) &&& s.bufferMask }

/-- The loop of `CircularBuffer::write` (circular_buffer.cpp, lines 29-50),
driven by the list of samples still to enqueue.  A full buffer makes the
C++ writer wait on the `notFull` condition; with no concurrent reader that
wait never ends, modelled as `none`.  The fuel argument (initialised to
`data.length`, an upper bound on the number of productive passes) only
makes the recursion structural; it is never exhausted first. -/
def writeLoop (fuel : Nat) (s : CircularBuffer) (data : List Int) (written : Nat) :
    Option (Nat × CircularBuffer) :=
  match data with
  | [] => some (written, s)
  | d :: ds =>
    if availableWrite s = 0 then none
    else
      match fuel with
      | 0 => none
      | fuel' + 1 =>
        let toWrite := min (availableWrite s) (d :: ds).length
        writeLoop fuel' (writeChunk s ((d :: ds).take toWrite))
          ((d :: ds).drop toWrite) (written + toWrite)

/-- `CircularBuffer::write` (circular_buffer.cpp, lines 24-53): a closed
channel accepts nothing and returns 0 immediately; otherwise the loop runs.
Returns the count written together with the new state. -/
def write (s : CircularBuffer) (data : List Int) : Option (Nat × CircularBuffer) :=
  if s.closed then some (0, s) else writeLoop data.length s data 0

/-- Read-cursor advance of `CircularBuffer::read` (circular_buffer.cpp,
line 76): `readPos = (readPos + toRead) & bufferMask`. -/
def advanceRead (s : CircularBuffer) (n : Nat) : CircularBuffer :=
  { s with readPos := (s.readPos + n) &&& s.bufferMask }

/-- The loop of `CircularBuffer::read` (circular_buffer.cpp, lines 58-81),
driven by the number of samples still requested.  An empty buffer ends the
call when the channel is closed; otherwise the C++ reader waits on
`notEmpty`, which with no concurrent writer never ends: `none`.  Fuel as
in `writeLoop`. -/
def readLoop (fuel : Nat) (s : CircularBuffer) (remaining : Nat) (acc : List Int) :
    Option (List Int × CircularBuffer) :=
  if remaining = 0 then some (acc, s)
  else if availableRead s = 0 then
    if s.closed then some (acc, s) else none
  else
    match fuel with
    | 0 => none
    | fuel' + 1 =>
      let toRead := min (availableRead s) remaining
      readLoop fuel' (advanceRead s toRead)
        (remaining - toRead) (acc ++ loadChunk s.buffer s.readPos s.bufferMask toRead)

/-- `CircularBuffer::read` (circular_buffer.cpp, lines 55-84).  Returns the
samples actually read (their number is the C++ return value) and the new
state. -/
def read (s : CircularBuffer) (count : Nat) : Option (List Int × CircularBuffer) :=
  readLoop count s count []

/-- `CircularBuffer::close` (circular_buffer.cpp, lines 86-92): sets the
closed flag (the condition-variable broadcasts have no sequential content). -/
def close (s : CircularBuffer) : CircularBuffer := { s with closed := true }

/-- The constructor result for a size that passes the power-of-two check:
both cursors 0, mask `size - 1` (with size_t wraparound), zeroed store,
open channel (circular_buffer.cpp, lines 5-18; std::vector::resize
value-initialises the samples). -/
def freshChannel (size : Nat) : CircularBuffer :=
  { buffer := fun _ => 0
    readPos := 0
    writePos := 0
    bufferSize := size
    bufferMask := (size + (SIZE_T_MOD - 1)) % SIZE_T_MOD
    closed := false }

/-- `CircularBuffer::CircularBuffer` (circular_buffer.cpp, lines 5-18):
`if ((size & (size - 1)) != 0) throw std::invalid_argument(...)`, where
`size - 1` wraps on size_t. -/
def mkCircularBuffer (size : Nat) : Except String CircularBuffer :=
  if size &&& ((size + (SIZE_T_MOD - 1)) % SIZE_T_MOD) ≠ 0 then
    Except.error ("Buffer size must be a power of 2")
  else
    Except.ok (freshChannel size)

/-- The queue of buffered-but-unread samples: the `availableRead` samples
starting at the read cursor. -/
def contents (s : CircularBuffer) : List Int :=
  loadChunk s.buffer s.readPos s.bufferMask (availableRead s)

/-- One operation of a single-producer single-consumer channel session. -/
inductive ChanOp where
  | write (data : List Int) : ChanOp
  | read (n : Nat) : ChanOp

/-- Run a sequence of channel operations serially, collecting every sample
returned by the reads.  `none` means some operation blocked forever
(sequentially, a wait no later operation can satisfy). -/
def runOps (s : CircularBuffer) : List ChanOp → Option (List Int × CircularBuffer)
  | [] => some ([], s)
  | ChanOp.write data :: rest =>
    match write s data with
    | none => none
    | some (_, s') => runOps s' rest
  | ChanOp.read n :: rest =>
    match read s n with
    | none => none
    | some (out, s') => (runOps s' rest).map (fun r => (out ++ r.1, r.2))

/-- Concatenation of all samples passed to the write operations of a
session, in order. -/
def writtenConcat : List ChanOp → List Int
  | [] => []
  | ChanOp.write data :: rest => data ++ writtenConcat rest
  | ChanOp.read _ :: rest => writtenConcat rest

/-- The silence scan of the capture loop (audio_capture.cpp, lines 114-123):
`true` iff one of the first `min (frames*channels) 100` transferred samples
is non-zero. -/
def hasNonZeroSamples (buf : List Int) (count : Nat) : Bool :=
  (buf.take (min count 100)).any (fun x => x != 0)

/-- One successful capture transfer processed by the capture loop
(audio_capture.cpp, lines 112-144): with `frames > 0`, the transferred
samples are scanned for silence; only when a non-zero sample is found in
the scanned prefix are the `frames * channels` samples written into the
downstream channel.  An all-silent transfer is logged ("All audio samples
are zero", a warning, not an error) and nothing is written.  Returns the
downstream channel state and the count written to it; `none` if the
channel write blocked forever. -/
def captureStep (frames channels : Nat) (buf : List Int) (chan : CircularBuffer) :
    Option (CircularBuffer × Nat) :=
  if 0 < frames then
    if hasNonZeroSamples buf (frames * channels) then
      (write chan (buf.take (frames * channels))).map (fun r => (r.2, r.1))
    else some (chan, 0)
  else some (chan, 0)

/-- Outcome of one iteration of the output loop, as observed at the
playback device. -/
inductive OutStep where
  | exit : OutStep
  | emit (block : List Int) (next : CircularBuffer) : OutStep
  | retry (next : CircularBuffer) : OutStep

/-- One iteration of `AlsaOutput::outputLoop` (alsa_output.cpp, lines
111-139), a period of `p` frames: read up to `p` samples from the
upstream channel; on a short read, exit if the channel is closed,
otherwise pad the period with silence when something was read, or retry
after a delay when nothing was.  A full period is written to the device
(`snd_pcm_writei` is modelled as accepting the period; its error paths
concern the hardware session, not the channel).  `none` models a read
blocked forever. -/
def outputStep (p : Nat) (s : CircularBuffer) : Option OutStep :=
  (read s p).map (fun r =>
    if r.1.length < p then
      if r.2.closed then OutStep.exit
      else if 0 < r.1.length then
        OutStep.emit (r.1 ++ List.replicate (p - r.1.length) 0) r.2
      else OutStep.retry r.2
    else OutStep.emit r.1 r.2)

/-- The periods written to the device by the output loop proper, up to
`fuel` iterations. -/
def outputLoopTrace (p : Nat) : Nat → CircularBuffer → List (List Int)
  | 0, _ => []
  | fuel + 1, s =>
    match outputStep p s with
    | none => []
    | some OutStep.exit => []
    | some (OutStep.emit b s') => b :: outputLoopTrace p fuel s'
    | some (OutStep.retry s') => outputLoopTrace p fuel s'

/-- All periods written to the playback device by `AlsaOutput::outputLoop`:
the two pre-rolled periods of silence (alsa_output.cpp, lines 106-109)
followed by the loop's writes. -/
def outputTrace (p fuel : Nat) (s : CircularBuffer) : List (List Int) :=
  List.replicate p (0 : Int) :: List.replicate p (0 : Int) :: outputLoopTrace p fuel s

/-- `enum AppState` (beamformer_defs.h, lines 28-34). -/
inductive AppState where
  | STATE_INIT | STATE_RUNNING | STATE_ERROR | STATE_RECOVERY | STATE_TERMINATING
deriving DecidableEq, Repr

/-- `enum ErrorType` (beamformer_defs.h, lines 37-43). -/
inductive ErrorType where
  | ERROR_NONE | ERROR_ALSA_XRUN | ERROR_ALSA_SUSPEND | ERROR_PROCESSING | ERROR_SYSTEM
deriving DecidableEq, Repr

/-- State of an `ErrorHandler` (error_handler.h, lines 10-23).
`errorMutexHeld` records whether the non-recursive `errorMutex` is held
by the thread whose execution is being followed: `std::mutex` is not
recursive, so a second acquisition by the owner never completes. -/
structure ErrorHandler where
  globalState : AppState
  lastError : ErrorType
  errorMutexHeld : Bool
  watchdogPing : Bool
  watchdogRunning : Bool
deriving DecidableEq, Repr

/-- `ErrorHandler::setGlobalState` (error_handler.cpp, lines 87-90); the
log call carries no state. -/
def setGlobalState (s : ErrorHandler) (st : AppState) : ErrorHandler :=
  { s with globalState := st }

/-- `ErrorHandler::recoverFromError` (error_handler.cpp, lines 49-85).
The function opens with `std::lock_guard lock(errorMutex)`; if the caller
already holds the mutex the acquisition never completes, returned as
`none`.  Otherwise: enter Recovery, dispatch on the last error (ALSA
xrun and suspend are treated as recovered, processing and system faults
are not), fall back to Error when not recovered, release the lock and
report the outcome. -/
def recoverFromError (s : ErrorHandler) : ErrorHandler × Option Bool :=
  if s.errorMutexHeld then (s, none)
  else
    let s1 := setGlobalState { s with errorMutexHeld := true } AppState.STATE_RECOVERY
    let recovered :=
      match s1.lastError with
      | ErrorType.ERROR_ALSA_XRUN => true
      | ErrorType.ERROR_ALSA_SUSPEND => true
      | _ => false
    let s2 := if recovered then s1 else setGlobalState s1 AppState.STATE_ERROR
    ({ s2 with errorMutexHeld := false }, some recovered)

/-- `ErrorHandler::reportError` (error_handler.cpp, lines 16-47): take the
error mutex, record the error kind (the switch only selects a log
message), enter Error, then call `recoverFromError` — which re-acquires
the same non-recursive mutex.  The second component is `true` iff the
call completes; when it does not, the first component is the state at the
point execution stalls. -/
def reportError (err : ErrorType) (s : ErrorHandler) : ErrorHandler × Bool :=
  if s.errorMutexHeld then (s, false)
  else
    let s1 := setGlobalState { s with errorMutexHeld := true, lastError := err }
      AppState.STATE_ERROR
    match recoverFromError s1 with
    | (s2, none) => (s2, false)
    | (s2, some recovered) =>
      let s3 := if recovered then setGlobalState s2 AppState.STATE_RUNNING else s2
      ({ s3 with errorMutexHeld := false }, true)

/-- `ErrorHandler::pingWatchdog` (error_handler.cpp, lines 123-125). -/
def pingWatchdog (s : ErrorHandler) : ErrorHandler :=
  { s with watchdogPing := true }

/-- `ErrorHandler::startWatchdog` (error_handler.cpp, lines 96-107): sets
the running flag and initialises the ping flag to `true` before the
monitor thread starts. -/
def startWatchdog (s : ErrorHandler) : ErrorHandler :=
  { s with watchdogRunning := true, watchdogPing := true }

/-- The `ErrorHandler` constructor state (error_handler.cpp, lines 4-10). -/
def initHandler : ErrorHandler :=
  { globalState := AppState.STATE_INIT
    lastError := ErrorType.ERROR_NONE
    errorMutexHeld := false
    watchdogPing := false
    watchdogRunning := false }

/-- What one watchdog timeout window produced. -/
inductive WindowResult where
  | quiet : WindowResult
  | fault (completed : Bool) : WindowResult
deriving DecidableEq, Repr

/-- `ErrorHandler::watchdogLoop` (error_handler.cpp, lines 127-151) over a
run of timeout windows; entry `i` of `arrivals` tells whether some thread
called `ping()` during window `i`.  At the end of a window: if the ping
flag is clear, report a system error; afterwards clear the flag and start
the next window.  When `reportError` does not complete, the monitor
thread is stuck inside it: the flag is never cleared and no further
window is ever checked, so the run ends there. -/
def watchdogRun (s : ErrorHandler) : List Bool → List WindowResult
  | [] => []
  | pinged :: rest =>
    let s1 := if pinged then pingWatchdog s else s
    if s1.watchdogPing then
      WindowResult.quiet :: watchdogRun { s1 with watchdogPing := false } rest
    else
      match reportError ErrorType.ERROR_SYSTEM s1 with
      | (s2, true) => WindowResult.fault true :: watchdogRun { s2 with watchdogPing := false } rest
      | (_, false) => [WindowResult.fault false]

/-- `SAMPLE_RATE` (beamformer_defs.h, line 5). -/
def SAMPLE_RATE : Nat := 32000

/-- `MIC_DISTANCE` in metres (beamformer_defs.h, line 16). -/
noncomputable def MIC_DISTANCE : ℝ := 0.0585

/-- `SOUND_SPEED` in m/s (beamformer_defs.h, line 17). -/
noncomputable def SOUND_SPEED : ℝ := 343.0

/-- `MAX_STEERING_DELAY` in samples (beamformer_defs.h, line 18). -/
def MAX_STEERING_DELAY : Int := 24

/-- The angle-to-radians conversion of `calculateDelaysForAngles`
(beamformer.cpp, line 141): `(angle - 90) * pi / 180`.  The C++ float
arithmetic is modelled exactly over the reals. -/
noncomputable def angleRad (angle : Int) : ℝ :=
  ((angle : ℝ) - 90) * Real.pi / 180

/-- The raw (unrounded) steering delay in samples for an angle
(beamformer.cpp, lines 146-149): `(d * sin(theta)) / c * rate`. -/
noncomputable def delaySamples (angle : Int) : ℝ :=
  MIC_DISTANCE * Real.sin (angleRad angle) / SOUND_SPEED * (SAMPLE_RATE : ℝ)

/-- C `round`: round half away from zero (beamformer.cpp, line 152). -/
noncomputable def cround (x : ℝ) : Int :=
  if 0 ≤ x then ⌊x + 1 / 2⌋ else -⌊-x + 1 / 2⌋

/-- The clamping of a delay into `[-MAX_STEERING_DELAY, MAX_STEERING_DELAY]`
(beamformer.cpp, lines 154-158). -/
def clampDelay (d : Int) : Int :=
  if d > MAX_STEERING_DELAY then MAX_STEERING_DELAY
  else if d < -MAX_STEERING_DELAY then -MAX_STEERING_DELAY
  else d

/-- Entry `angle` of the `delayPerAngle` table built once by
`BeamFormer::calculateDelaysForAngles` (beamformer.cpp, lines 137-160). -/
noncomputable def delayPerAngle (angle : Int) : Int :=
  clampDelay (cround (delaySamples angle))

/-- A fresh channel of capacity 8, used as a concrete test fixture. -/
def chan8 : CircularBuffer := freshChannel 8

/-- A concrete operation sequence exercising interleaved writes and reads
that drain the channel completely. -/
def demoOps : List ChanOp :=
  [ChanOp.write [1, 2, 3], ChanOp.read 2, ChanOp.write [4, 5, 6, 7], ChanOp.read 5]

/-- A capacity-256 channel holding 200 unread samples: the state produced
by writing 200 samples into a fresh channel (see `s200_write`). -/
def s200 : CircularBuffer := writeChunk (freshChannel 256) (List.replicate 200 1)

/-- The same channel after `close()`: 200 unread samples, closed. -/
def s200c : CircularBuffer := close s200

/-- Well-formedness of a channel state: the capacity is a power of two
fitting size_t, the mask is capacity−1, and both cursors are in range.
The constructor establishes this and every operation preserves it. -/
structure WF (s : CircularBuffer) : Prop where
  pow : ∃ k, s.bufferSize = 2 ^ k
  size_dvd : s.bufferSize ∣ SIZE_T_MOD
  mask_eq : s.bufferMask = s.bufferSize - 1
  rp_lt : s.readPos < s.bufferSize
  wp_lt : s.writePos < s.bufferSize

theorem WF.size_pos {s : CircularBuffer} (h : WF s) : 0 < s.bufferSize := by
  obtain ⟨k, hk⟩ := h.pow
  rw [hk]
  exact Nat.pos_pow_of_pos k (by norm_num)

theorem WF.size_le {s : CircularBuffer} (h : WF s) : s.bufferSize ≤ SIZE_T_MOD :=
  Nat.le_of_dvd (by norm_num [SIZE_T_MOD]) h.size_dvd

theorem WF.mask_law {s : CircularBuffer} (h : WF s) (x : Nat) :
    x &&& s.bufferMask = x % s.bufferSize := by
  obtain ⟨k, hk⟩ := h.pow
  rw [h.mask_eq, hk]
  exact Nat.and_pow_two_sub_one_eq_mod x k

/-- The size_t computation of `availableRead` agrees with the abstract
cyclic distance `(writePos + N - readPos) % N`. -/
theorem availableRead_eq {s : CircularBuffer} (h : WF s) :
    availableRead s = (s.writePos + s.bufferSize - s.readPos) % s.bufferSize := by
  obtain ⟨q, hq⟩ := h.size_dvd
  have hN : 0 < s.bufferSize := h.size_pos
  have hrp : s.readPos < s.bufferSize := h.rp_lt
  have hle : s.bufferSize ≤ SIZE_T_MOD := h.size_le
  have hM : 0 < SIZE_T_MOD := by norm_num [SIZE_T_MOD]
  unfold availableRead subSizeT
  rw [h.mask_law, Nat.mod_mod_of_dvd _ h.size_dvd,
    Nat.mod_eq_of_lt (lt_of_lt_of_le hrp hle)]
  obtain ⟨m, hm⟩ : ∃ m, q = m + 1 := by
    rcases q with _ | m
    · exfalso; rw [hq] at hM; simp at hM
    · exact ⟨m, rfl⟩
  have hsplit : SIZE_T_MOD = s.bufferSize * m + s.bufferSize := by
    rw [hq, hm, Nat.mul_succ]
  have harith : s.writePos + (SIZE_T_MOD - s.readPos)
      = (s.writePos + s.bufferSize - s.readPos) + s.bufferSize * m := by
    omega
  rw [harith, Nat.add_mul_mod_self_left]

theorem availableRead_le {s : CircularBuffer} (h : WF s) :
    availableRead s ≤ s.bufferSize - 1 := by
  have h1 : availableRead s ≤ s.bufferMask := Nat.and_le_right
  rwa [h.mask_eq] at h1

theorem availableRead_lt {s : CircularBuffer} (h : WF s) :
    availableRead s < s.bufferSize := by
  have h1 := availableRead_le h
  have h2 := h.size_pos
  omega

/-- The write cursor sits `availableRead` slots past the read cursor,
cyclically. -/
theorem writePos_eq {s : CircularBuffer} (h : WF s) :
    (s.readPos + availableRead s) % s.bufferSize = s.writePos := by
  rw [availableRead_eq h, Nat.add_mod_mod]
  have heq : s.readPos + (s.writePos + s.bufferSize - s.readPos)
      = s.writePos + s.bufferSize := by
    have := h.rp_lt
    omega
  rw [heq, Nat.add_mod_right, Nat.mod_eq_of_lt h.wp_lt]

/-- Adding a fixed offset is injective modulo `N` on residues below `N`. -/
theorem add_mod_inj {N : Nat} (pos i j : Nat) (hi : i < N) (hj : j < N)
    (h : (pos + i) % N = (pos + j) % N) : i = j := by
  have h2 : i % N = j % N := Nat.ModEq.add_left_cancel' pos h
  rwa [Nat.mod_eq_of_lt hi, Nat.mod_eq_of_lt hj] at h2

/-- A store pass of length at most `N - 1` starting one slot past `pos`
never touches slot `pos % N`. -/
theorem head_not_written {N : Nat} (pos len : Nat) (hlen : len + 1 ≤ N) :
    ∀ i, i < len → pos % N ≠ (pos + 1 + i) % N := by
  intro i hi heq
  have h1 : pos % N = (pos + 0) % N := by simp
  rw [h1, show pos + 1 + i = pos + (1 + i) from by omega] at heq
  have := add_mod_inj pos 0 (1 + i) (by omega) (by omega) heq
  omega

/-- Slots outside the range written by `storeChunk` keep their value. -/
theorem storeChunk_eval_notin {N mask : Nat} (hmask : ∀ x, x &&& mask = x % N) :
    ∀ (chunk : List Int) (buf : Nat → Int) (pos q : Nat),
      (∀ j, j < chunk.length → q ≠ (pos + j) % N) →
      storeChunk buf pos mask chunk q = buf q := by
  intro chunk
  induction chunk with
  | nil => intro buf pos q _; rfl
  | cons c cs ih =>
    intro buf pos q hq
    have hrest : ∀ j, j < cs.length → q ≠ (pos + 1 + j) % N := by
      intro j hj
      have h := hq (j + 1) (by simp; omega)
      rwa [show pos + (j + 1) = pos + 1 + j from by omega] at h
    show storeChunk (setAt buf (pos &&& mask) c) (pos + 1) mask cs q = buf q
    rw [ih (setAt buf (pos &&& mask) c) (pos + 1) q hrest, hmask]
    have h0 : q ≠ pos % N := by simpa using hq 0 (by simp)
    simp [setAt, h0]

/-- The slot written for element `j` of the chunk holds that element
afterwards (the chunk is short enough that no slot is written twice). -/
theorem storeChunk_eval_in {N mask : Nat} (hmask : ∀ x, x &&& mask = x % N) :
    ∀ (chunk : List Int) (buf : Nat → Int) (pos j : Nat),
      j < chunk.length → chunk.length ≤ N →
      storeChunk buf pos mask chunk ((pos + j) % N) = chunk.getD j 0 := by
  intro chunk
  induction chunk with
  | nil => intro buf pos j hj _; simp at hj
  | cons c cs ih =>
    intro buf pos j hj hlen
    have hlen' : cs.length + 1 ≤ N := by simpa using hlen
    match j with
    | 0 =>
      show storeChunk (setAt buf (pos &&& mask) c) (pos + 1) mask cs (pos % N) = c
      rw [storeChunk_eval_notin hmask cs _ (pos + 1) (pos % N)
          (head_not_written pos cs.length hlen'),
        hmask]
      simp [setAt]
    | j' + 1 =>
      show storeChunk (setAt buf (pos &&& mask) c) (pos + 1) mask cs ((pos + (j' + 1)) % N)
          = cs.getD j' 0
      rw [show pos + (j' + 1) = (pos + 1) + j' from by omega]
      exact ih _ (pos + 1) j' (by simpa using hj) (by omega)

theorem loadChunk_length (buf : Nat → Int) (mask : Nat) :
    ∀ (n pos : Nat), (loadChunk buf pos mask n).length = n := by
  intro n
  induction n with
  | zero => intro pos; rfl
  | succ n ih => intro pos; simp [loadChunk, ih (pos + 1)]

theorem loadChunk_add (buf : Nat → Int) (mask : Nat) :
    ∀ (m n pos : Nat),
      loadChunk buf pos mask (m + n)
        = loadChunk buf pos mask m ++ loadChunk buf (pos + m) mask n := by
  intro m
  induction m with
  | zero => intro n pos; simp [loadChunk]
  | succ m ih =>
    intro n pos
    rw [show m + 1 + n = (m + n) + 1 from by omega]
    show buf (pos &&& mask) :: loadChunk buf (pos + 1) mask (m + n) = _
    rw [ih n (pos + 1)]
    show _ = (buf (pos &&& mask) :: loadChunk buf (pos + 1) mask m)
        ++ loadChunk buf (pos + (m + 1)) mask n
    rw [show pos + (m + 1) = (pos + 1) + m from by omega]
    simp

/-- Loading depends only on the values of the slots actually visited. -/
theorem loadChunk_congr {N mask : Nat} (hmask : ∀ x, x &&& mask = x % N)
    (buf buf' : Nat → Int) :
    ∀ (n pos : Nat),
      (∀ i, i < n → buf' ((pos + i) % N) = buf ((pos + i) % N)) →
      loadChunk buf' pos mask n = loadChunk buf pos mask n := by
  intro n
  induction n with
  | zero => intro pos _; rfl
  | succ n ih =>
    intro pos h
    have h0 : buf' (pos % N) = buf (pos % N) := by simpa using h 0 (by omega)
    have hr : ∀ i, i < n → buf' ((pos + 1 + i) % N) = buf ((pos + 1 + i) % N) := by
      intro i hi
      have := h (i + 1) (by omega)
      rwa [show pos + (i + 1) = pos + 1 + i from by omega] at this
    show buf' (pos &&& mask) :: _ = buf (pos &&& mask) :: _
    rw [hmask, h0, ih (pos + 1) hr]

/-- Loading depends only on the start position modulo `N`. -/
theorem loadChunk_mod_congr {N mask : Nat} (hmask : ∀ x, x &&& mask = x % N)
    (buf : Nat → Int) :
    ∀ (n pos pos' : Nat), pos % N = pos' % N →
      loadChunk buf pos mask n = loadChunk buf pos' mask n := by
  intro n
  induction n with
  | zero => intro _ _ _; rfl
  | succ n ih =>
    intro pos pos' h
    show buf (pos &&& mask) :: _ = buf (pos' &&& mask) :: _
    rw [hmask, hmask, h, ih (pos + 1) (pos' + 1) (by rw [Nat.add_mod, h, ← Nat.add_mod])]

/-- Reading back a freshly stored chunk returns the chunk. -/
theorem loadChunk_storeChunk {N mask : Nat} (hmask : ∀ x, x &&& mask = x % N) :
    ∀ (chunk : List Int) (buf : Nat → Int) (pos : Nat), chunk.length ≤ N →
      loadChunk (storeChunk buf pos mask chunk) pos mask chunk.length = chunk := by
  intro chunk
  induction chunk with
  | nil => intro buf pos _; rfl
  | cons c cs ih =>
    intro buf pos hlen
    have hlen' : cs.length + 1 ≤ N := by simpa using hlen
    show storeChunk (setAt buf (pos &&& mask) c) (pos + 1) mask cs (pos &&& mask)
        :: loadChunk (storeChunk (setAt buf (pos &&& mask) c) (pos + 1) mask cs)
            (pos + 1) mask cs.length
        = c :: cs
    rw [hmask,
      storeChunk_eval_notin hmask cs _ (pos + 1) (pos % N) (head_not_written pos cs.length hlen'),
      ih (setAt buf (pos % N) c) (pos + 1) (by omega)]
    simp [setAt]

/-- Cyclic-gap computation: if `u` sits `r` slots past `v` on the ring,
the size_t gap formula recovers `r`. -/
theorem cyclic_gap {N u v r : Nat} (hN : 0 < N) (hv : v < N) (hr : r < N)
    (huv : (v + r) % N = u) : (u + N - v) % N = r := by
  rcases Nat.lt_or_ge (v + r) N with hc | hc
  · rw [Nat.mod_eq_of_lt hc] at huv
    rw [show u + N - v = r + N from by omega, Nat.add_mod_right, Nat.mod_eq_of_lt hr]
  · rw [Nat.mod_eq_sub_mod hc, Nat.mod_eq_of_lt (by omega)] at huv
    rw [show u + N - v = r from by omega, Nat.mod_eq_of_lt hr]

theorem writeChunk_wf {s : CircularBuffer} {chunk : List Int} (h : WF s) :
    WF (writeChunk s chunk) where
  pow := h.pow
  size_dvd := h.size_dvd
  mask_eq := h.mask_eq
  rp_lt := h.rp_lt
  wp_lt := by
    show (s.writePos + chunk.length) &&& s.bufferMask < s.bufferSize
    rw [h.mask_law]
    exact Nat.mod_lt _ h.size_pos

theorem advanceRead_wf {s : CircularBuffer} {n : Nat} (h : WF s) :
    WF (advanceRead s n) where
  pow := h.pow
  size_dvd := h.size_dvd
  mask_eq := h.mask_eq
  wp_lt := h.wp_lt
  rp_lt := by
    show (s.readPos + n) &&& s.bufferMask < s.bufferSize
    rw [h.mask_law]
    exact Nat.mod_lt _ h.size_pos

theorem writeChunk_nil {s : CircularBuffer} (h : WF s) : writeChunk s [] = s := by
  ext q
  · rfl
  · rfl
  · show (s.writePos + ([] : List Int).length) &&& s.bufferMask = s.writePos
    rw [List.length_nil, Nat.add_zero, h.mask_law, Nat.mod_eq_of_lt h.wp_lt]
  · rfl
  · rfl
  · rfl

theorem advanceRead_zero {s : CircularBuffer} (h : WF s) : advanceRead s 0 = s := by
  ext q
  · rfl
  · show (s.readPos + 0) &&& s.bufferMask = s.readPos
    rw [Nat.add_zero, h.mask_law, Nat.mod_eq_of_lt h.rp_lt]
  · rfl
  · rfl
  · rfl
  · rfl

/-- Writing a chunk that fits grows the readable count by the chunk length. -/
theorem availableRead_writeChunk {s : CircularBuffer} {chunk : List Int} (h : WF s)
    (hk : chunk.length ≤ availableWrite s) :
    availableRead (writeChunk s chunk) = availableRead s + chunk.length := by
  have hN := h.size_pos
  have hr := availableRead_le h
  have hrk : availableRead s + chunk.length ≤ s.bufferSize - 1 := by
    unfold availableWrite at hk
    omega
  rw [availableRead_eq (writeChunk_wf h)]
  show (((s.writePos + chunk.length) &&& s.bufferMask) + s.bufferSize - s.readPos)
      % s.bufferSize = _
  rw [h.mask_law]
  refine cyclic_gap hN h.rp_lt (by omega) ?_
  rw [show s.readPos + (availableRead s + chunk.length)
      = (s.readPos + availableRead s) + chunk.length from by omega,
    Nat.add_mod, writePos_eq h, Nat.add_mod_mod]

/-- Writing a chunk that fits shrinks the free space by the chunk length. -/
theorem availableWrite_writeChunk {s : CircularBuffer} {chunk : List Int} (h : WF s)
    (hk : chunk.length ≤ availableWrite s) :
    availableWrite (writeChunk s chunk) = availableWrite s - chunk.length := by
  unfold availableWrite
  rw [availableRead_writeChunk h hk]
  show s.bufferSize - 1 - (availableRead s + chunk.length) = _
  unfold availableWrite at hk
  omega

/-- Advancing the read cursor by `n ≤ availableRead` shrinks the readable
count by `n`. -/
theorem availableRead_advanceRead {s : CircularBuffer} {n : Nat} (h : WF s)
    (hn : n ≤ availableRead s) :
    availableRead (advanceRead s n) = availableRead s - n := by
  have hN := h.size_pos
  have hr := availableRead_le h
  rw [availableRead_eq (advanceRead_wf h)]
  show (s.writePos + s.bufferSize - ((s.readPos + n) &&& s.bufferMask))
      % s.bufferSize = _
  rw [h.mask_law]
  refine cyclic_gap hN (Nat.mod_lt _ hN) (by omega) ?_
  rw [Nat.mod_add_mod,
    show s.readPos + n + (availableRead s - n) = s.readPos + availableRead s from by omega,
    writePos_eq h]

/-- Writing a chunk that fits appends it to the buffered queue. -/
theorem contents_writeChunk {s : CircularBuffer} {chunk : List Int} (h : WF s)
    (hk : chunk.length ≤ availableWrite s) :
    contents (writeChunk s chunk) = contents s ++ chunk := by
  have hN := h.size_pos
  have hr := availableRead_le h
  have hrk : availableRead s + chunk.length ≤ s.bufferSize - 1 := by
    unfold availableWrite at hk
    omega
  unfold contents
  rw [availableRead_writeChunk h hk]
  show loadChunk (storeChunk s.buffer s.writePos s.bufferMask chunk) s.readPos
      s.bufferMask (availableRead s + chunk.length) = _
  rw [loadChunk_add]
  congr 1
  · refine loadChunk_congr h.mask_law s.buffer _ _ _ ?_
    intro i hi
    refine storeChunk_eval_notin h.mask_law chunk s.buffer s.writePos _ ?_
    intro j hj heq
    have hwpj : (s.writePos + j) % s.bufferSize
        = (s.readPos + (availableRead s + j)) % s.bufferSize := by
      conv_lhs => rw [← writePos_eq h]
      rw [Nat.mod_add_mod, Nat.add_assoc]
    rw [hwpj] at heq
    have := add_mod_inj s.readPos i (availableRead s + j) (by omega) (by omega) heq
    omega
  · have h3 : (s.readPos + availableRead s) % s.bufferSize = s.writePos % s.bufferSize := by
      rw [writePos_eq h, Nat.mod_eq_of_lt h.wp_lt]
    rw [loadChunk_mod_congr h.mask_law _ chunk.length _ s.writePos h3]
    exact loadChunk_storeChunk h.mask_law chunk s.buffer s.writePos (by omega)

/-- The first `n ≤ availableRead` loaded samples are the queue's prefix. -/
theorem loadChunk_take {s : CircularBuffer} {n : Nat} (h : WF s)
    (hn : n ≤ availableRead s) :
    loadChunk s.buffer s.readPos s.bufferMask n = (contents s).take n := by
  unfold contents
  rw [show availableRead s = n + (availableRead s - n) from by omega, loadChunk_add]
  rw [List.take_left' (loadChunk_length s.buffer s.bufferMask n s.readPos)]

/-- Advancing the read cursor drops the consumed prefix of the queue. -/
theorem contents_advanceRead {s : CircularBuffer} {n : Nat} (h : WF s)
    (hn : n ≤ availableRead s) :
    contents (advanceRead s n) = (contents s).drop n := by
  have hN := h.size_pos
  unfold contents
  rw [availableRead_advanceRead h hn]
  show loadChunk s.buffer ((s.readPos + n) &&& s.bufferMask) s.bufferMask
      (availableRead s - n) = _
  have hmod : ((s.readPos + n) &&& s.bufferMask) % s.bufferSize
      = (s.readPos + n) % s.bufferSize := by
    rw [h.mask_law, Nat.mod_mod_of_dvd _ (dvd_refl _)]
  rw [loadChunk_mod_congr h.mask_law _ _ _ (s.readPos + n) hmod]
  conv_rhs =>
    rw [show availableRead s = n + (availableRead s - n) from by omega, loadChunk_add]
  rw [List.drop_left' (loadChunk_length s.buffer s.bufferMask n s.readPos)]

theorem contents_length {s : CircularBuffer} :
    (contents s).length = availableRead s :=
  loadChunk_length s.buffer s.bufferMask (availableRead s) s.readPos

theorem writeChunk_closed {s : CircularBuffer} {chunk : List Int} :
    (writeChunk s chunk).closed = s.closed := rfl

theorem advanceRead_closed {s : CircularBuffer} {n : Nat} :
    (advanceRead s n).closed = s.closed := rfl

theorem freshChannel_wf {k : Nat} (hk : k ≤ 64) : WF (freshChannel (2 ^ k)) where
  pow := ⟨k, rfl⟩
  size_dvd := pow_dvd_pow 2 hk
  mask_eq := by
    show (2 ^ k + (SIZE_T_MOD - 1)) % SIZE_T_MOD = 2 ^ k - 1
    have h1 : (1 : Nat) ≤ 2 ^ k := Nat.one_le_two_pow
    have h2 : (2 : Nat) ^ k ≤ SIZE_T_MOD := Nat.pow_le_pow_right (by norm_num) hk
    have h3 : 0 < SIZE_T_MOD := by norm_num [SIZE_T_MOD]
    rw [show 2 ^ k + (SIZE_T_MOD - 1) = (2 ^ k - 1) + SIZE_T_MOD from by omega,
      Nat.add_mod_right, Nat.mod_eq_of_lt (by omega)]
  rp_lt := Nat.one_le_two_pow
  wp_lt := Nat.one_le_two_pow

theorem chan8_wf : WF chan8 := freshChannel_wf (k := 3) (by norm_num)

theorem writeLoop_nil (fuel : Nat) (s : CircularBuffer) (written : Nat) :
    writeLoop fuel s [] written = some (written, s) := by
  simp only [writeLoop]

theorem writeLoop_zero_cons (s : CircularBuffer) (d : Int) (ds : List Int) (written : Nat) :
    writeLoop 0 s (d :: ds) written
      = if availableWrite s = 0 then none else none := rfl

theorem writeLoop_succ_cons (fuel : Nat) (s : CircularBuffer) (d : Int) (ds : List Int)
    (written : Nat) :
    writeLoop (fuel + 1) s (d :: ds) written
      = if availableWrite s = 0 then none
        else writeLoop fuel
          (writeChunk s ((d :: ds).take (min (availableWrite s) (d :: ds).length)))
          ((d :: ds).drop (min (availableWrite s) (d :: ds).length))
          (written + min (availableWrite s) (d :: ds).length) := rfl

theorem writeLoop_cons_blocked {s : CircularBuffer} (fuel : Nat) (d : Int) (ds : List Int)
    (written : Nat) (h0 : availableWrite s = 0) :
    writeLoop fuel s (d :: ds) written = none := by
  cases fuel with
  | zero => rw [writeLoop_zero_cons, if_pos h0]
  | succ fuel => rw [writeLoop_succ_cons, if_pos h0]

theorem writeLoop_cons_step {s : CircularBuffer} (fuel : Nat) (d : Int) (ds : List Int)
    (written : Nat) (hpos : availableWrite s ≠ 0) :
    writeLoop (fuel + 1) s (d :: ds) written
      = writeLoop fuel (writeChunk s ((d :: ds).take (min (availableWrite s) (d :: ds).length)))
          ((d :: ds).drop (min (availableWrite s) (d :: ds).length))
          (written + min (availableWrite s) (d :: ds).length) := by
  rw [writeLoop_succ_cons, if_neg hpos]

theorem write_of_closed {s : CircularBuffer} (data : List Int) (hc : s.closed = true) :
    write s data = some (0, s) := by
  simp [write, hc]

/-- A write whose data fits into the free space succeeds in a single pass,
writing everything. -/
theorem write_eq_of_fits {s : CircularBuffer} {data : List Int} (h : WF s)
    (hc : s.closed = false) (hfit : data.length ≤ availableWrite s) :
    write s data = some (data.length, writeChunk s data) := by
  unfold write
  rw [hc]
  simp only [Bool.false_eq_true, if_false]
  cases data with
  | nil =>
    rw [writeChunk_nil h, writeLoop_nil]
    rfl
  | cons d ds =>
    show writeLoop (ds.length + 1) s (d :: ds) 0 = _
    rw [writeLoop_cons_step _ _ _ _ (by simp at hfit ⊢; omega)]
    have hmin : min (availableWrite s) (d :: ds).length = (d :: ds).length :=
      min_eq_right hfit
    rw [hmin, List.take_length, List.drop_length, writeLoop_nil, Nat.zero_add]

/-- A write larger than the free space blocks: a first pass fills the
buffer, after which the writer waits forever (no concurrent reader). -/
theorem write_none_of_exceeds {s : CircularBuffer} {data : List Int} (h : WF s)
    (hc : s.closed = false) (hbig : availableWrite s < data.length) :
    write s data = none := by
  unfold write
  rw [hc]
  simp only [Bool.false_eq_true, if_false]
  cases data with
  | nil => simp at hbig
  | cons d ds =>
    rcases Nat.eq_zero_or_pos (availableWrite s) with h0 | hpos
    · exact writeLoop_cons_blocked _ _ _ _ h0
    · show writeLoop (ds.length + 1) s (d :: ds) 0 = none
      rw [writeLoop_cons_step _ _ _ _ (by omega)]
      have hmin : min (availableWrite s) (d :: ds).length = availableWrite s :=
        min_eq_left (le_of_lt hbig)
      rw [hmin]
      have htk : ((d :: ds).take (availableWrite s)).length = availableWrite s := by
        rw [List.length_take]
        omega
      have hw0 : availableWrite (writeChunk s ((d :: ds).take (availableWrite s))) = 0 := by
        rw [availableWrite_writeChunk h (le_of_eq htk), htk, Nat.sub_self]
      obtain ⟨e, es, hdrop⟩ : ∃ e es, (d :: ds).drop (availableWrite s) = e :: es := by
        cases hd : (d :: ds).drop (availableWrite s) with
        | nil =>
          exfalso
          have hlen := List.drop_eq_nil_iff.mp hd
          omega
        | cons e es => exact ⟨e, es, rfl⟩
      rw [hdrop, writeLoop_cons_blocked _ _ _ _ hw0]

theorem readLoop_zero (s : CircularBuffer) (remaining : Nat) (acc : List Int) :
    readLoop 0 s remaining acc
      = if remaining = 0 then some (acc, s)
        else if availableRead s = 0 then
          if s.closed then some (acc, s) else none
        else none := rfl

theorem readLoop_succ (fuel : Nat) (s : CircularBuffer) (remaining : Nat) (acc : List Int) :
    readLoop (fuel + 1) s remaining acc
      = if remaining = 0 then some (acc, s)
        else if availableRead s = 0 then
          if s.closed then some (acc, s) else none
        else readLoop fuel (advanceRead s (min (availableRead s) remaining))
          (remaining - min (availableRead s) remaining)
          (acc ++ loadChunk s.buffer s.readPos s.bufferMask
            (min (availableRead s) remaining)) := rfl

theorem readLoop_done (fuel : Nat) (s : CircularBuffer) (acc : List Int) :
    readLoop fuel s 0 acc = some (acc, s) := by
  cases fuel with
  | zero => rw [readLoop_zero, if_pos rfl]
  | succ fuel => rw [readLoop_succ, if_pos rfl]

/-- A read requesting no more than what is buffered returns exactly the
requested prefix of the queue, in one pass. -/
theorem read_eq_of_le {s : CircularBuffer} {n : Nat} (h : WF s)
    (hn : n ≤ availableRead s) :
    read s n = some ((contents s).take n, advanceRead s n) := by
  unfold read
  cases n with
  | zero =>
    rw [advanceRead_zero h, readLoop_done]
    simp
  | succ m =>
    have hpos : availableRead s ≠ 0 := by omega
    rw [readLoop_succ, if_neg (by omega : ¬ (m + 1 = 0)), if_neg hpos]
    have hmin : min (availableRead s) (m + 1) = m + 1 := min_eq_right hn
    rw [hmin, Nat.sub_self, readLoop_done, List.nil_append, loadChunk_take h hn]

/-- A read requesting more than is buffered on a closed channel drains the
queue and returns it (short read), ending because the channel is closed. -/
theorem read_eq_of_closed {s : CircularBuffer} {n : Nat} (h : WF s)
    (hc : s.closed = true) (hn : availableRead s < n) :
    read s n = some (contents s, advanceRead s (availableRead s)) := by
  unfold read
  obtain ⟨m, rfl⟩ : ∃ m, n = m + 1 := ⟨n - 1, by omega⟩
  rw [readLoop_succ, if_neg (by omega : ¬ (m + 1 = 0))]
  rcases Nat.eq_zero_or_pos (availableRead s) with h0 | hpos
  · have hcontents : contents s = [] := by
      unfold contents
      rw [h0]
      rfl
    rw [if_pos h0, if_pos hc, hcontents, h0, advanceRead_zero h]
  · rw [if_neg (by omega : ¬ availableRead s = 0)]
    have hmin : min (availableRead s) (m + 1) = availableRead s :=
      min_eq_left (by omega)
    rw [hmin]
    have havail' : availableRead (advanceRead s (availableRead s)) = 0 := by
      rw [availableRead_advanceRead h (le_refl _)]
      omega
    have hclosed' : (advanceRead s (availableRead s)).closed = true := hc
    cases m with
    | zero => exact absurd hn (by omega)
    | succ m' =>
      rw [readLoop_succ, if_neg (by omega : ¬ (m' + 1 + 1 - availableRead s = 0)),
        if_pos havail', if_pos hclosed', List.nil_append]
      rfl

/-- A read requesting more than is buffered on an open channel blocks
forever (no concurrent writer). -/
theorem read_none_of_open {s : CircularBuffer} {n : Nat} (h : WF s)
    (hc : s.closed = false) (hn : availableRead s < n) :
    read s n = none := by
  unfold read
  obtain ⟨m, rfl⟩ : ∃ m, n = m + 1 := ⟨n - 1, by omega⟩
  rw [readLoop_succ, if_neg (by omega : ¬ (m + 1 = 0))]
  rcases Nat.eq_zero_or_pos (availableRead s) with h0 | hpos
  · rw [if_pos h0, hc]
    simp
  · rw [if_neg (by omega : ¬ availableRead s = 0)]
    have hmin : min (availableRead s) (m + 1) = availableRead s :=
      min_eq_left (by omega)
    rw [hmin]
    have havail' : availableRead (advanceRead s (availableRead s)) = 0 := by
      rw [availableRead_advanceRead h (le_refl _)]
      omega
    have hclosed' : (advanceRead s (availableRead s)).closed = false := hc
    cases m with
    | zero => exact absurd hn (by omega)
    | succ m' =>
      rw [readLoop_succ, if_neg (by omega : ¬ (m' + 1 + 1 - availableRead s = 0)),
        if_pos havail', hclosed']
      simp

/-- Exhaustive behaviour of `read` on a well-formed channel. -/
theorem read_cases {s : CircularBuffer} (n : Nat) (h : WF s) :
    (n ≤ availableRead s ∧ read s n = some ((contents s).take n, advanceRead s n))
    ∨ (availableRead s < n ∧ s.closed = true
        ∧ read s n = some (contents s, advanceRead s (availableRead s)))
    ∨ (availableRead s < n ∧ s.closed = false ∧ read s n = none) := by
  rcases le_or_lt n (availableRead s) with hle | hgt
  · exact Or.inl ⟨hle, read_eq_of_le h hle⟩
  · cases hcl : s.closed with
    | true => exact Or.inr (Or.inl ⟨hgt, rfl, read_eq_of_closed h hcl hgt⟩)
    | false => exact Or.inr (Or.inr ⟨hgt, rfl, read_none_of_open h hcl hgt⟩)

/-- Invariant of a serial channel session: samples read so far, followed
by what is still buffered, equal the original queue followed by all
samples written so far (FIFO, no loss, no corruption). -/
theorem runOps_spec {ops : List ChanOp} :
    ∀ {s : CircularBuffer} {outs : List Int} {sf : CircularBuffer},
      WF s → s.closed = false → runOps s ops = some (outs, sf) →
      outs ++ contents sf = contents s ++ writtenConcat ops ∧ WF sf ∧ sf.closed = false := by
  induction ops with
  | nil =>
    intro s outs sf h hc hrun
    simp only [runOps, Option.some.injEq, Prod.mk.injEq] at hrun
    obtain ⟨rfl, rfl⟩ := hrun
    exact ⟨by simp [writtenConcat], h, hc⟩
  | cons op rest ih =>
    intro s outs sf h hc hrun
    cases op with
    | write data =>
      simp only [runOps] at hrun
      rcases le_or_lt data.length (availableWrite s) with hfit | hbig
      · rw [write_eq_of_fits h hc hfit] at hrun
        obtain ⟨ha, hwf', hc'⟩ := ih (writeChunk_wf h) (writeChunk_closed.trans hc) hrun
        refine ⟨?_, hwf', hc'⟩
        rw [ha, contents_writeChunk h hfit]
        simp [writtenConcat]
      · rw [write_none_of_exceeds h hc hbig] at hrun
        simp at hrun
    | read n =>
      simp only [runOps] at hrun
      rcases le_or_lt n (availableRead s) with hle | hgt
      · rw [read_eq_of_le h hle] at hrun
        rw [Option.map_eq_some'] at hrun
        obtain ⟨⟨outs', sf'⟩, hrun', heq⟩ := hrun
        obtain ⟨rfl, rfl⟩ : (contents s).take n ++ outs' = outs ∧ sf' = sf := by
          simpa using heq
        obtain ⟨ha, hwf', hc'⟩ := ih (advanceRead_wf h) (advanceRead_closed.trans hc) hrun'
        refine ⟨?_, hwf', hc'⟩
        rw [List.append_assoc, ha, contents_advanceRead h hle]
        show (contents s).take n ++ ((contents s).drop n ++ _) = _
        rw [← List.append_assoc, List.take_append_drop]
        simp [writtenConcat]
      · rw [read_none_of_open h hc hgt] at hrun
        simp at hrun

theorem close_wf {s : CircularBuffer} (h : WF s) : WF (close s) :=
  ⟨h.pow, h.size_dvd, h.mask_eq, h.rp_lt, h.wp_lt⟩

/-- Any read from a drained closed channel returns nothing and leaves the
state unchanged. -/
theorem read_drained {s : CircularBuffer} (hc : s.closed = true)
    (h0 : availableRead s = 0) (m : Nat) : read s m = some ([], s) := by
  cases m with
  | zero => exact readLoop_done 0 s []
  | succ m =>
    unfold read
    rw [readLoop_succ, if_neg (by omega : ¬ (m + 1 = 0)), if_pos h0, if_pos hc]

theorem s200_wf : WF s200 := writeChunk_wf (freshChannel_wf (k := 8) (by norm_num))

theorem s200c_wf : WF s200c := close_wf s200_wf

set_option maxRecDepth 8000 in
/-- The fixture `s200` is the state the channel write actually produces. -/
theorem s200_write : write (freshChannel 256) (List.replicate 200 1) = some (200, s200) :=
  write_eq_of_fits (freshChannel_wf (k := 8) (by norm_num)) rfl (by decide)

/-- C1: for every serial session of writes and reads on a channel in which
no operation blocks (each write fits the free space at its turn and each
read request is fulfillable — the rendering of "buffered samples never
exceed the capacity"), the samples read so far followed by the samples
still buffered equal the initial queue followed by everything written, in
order; in particular a session that starts empty and drains the channel
returns exactly the written samples (FIFO round-trip, no loss, no
corruption). -/
theorem claim_C1_fifo_round_trip (s : CircularBuffer) (ops : List ChanOp)
    (outs : List Int) (sf : CircularBuffer) (h : WF s) (hc : s.closed = false)
    (hrun : runOps s ops = some (outs, sf)) :
    outs ++ contents sf = contents s ++ writtenConcat ops
    ∧ (contents s = [] → availableRead sf = 0 → outs = writtenConcat ops) := by
  obtain ⟨ha, hwf', -⟩ := runOps_spec h hc hrun
  refine ⟨ha, fun h1 h2 => ?_⟩
  have h3 : contents sf = [] := by
    unfold contents
    rw [h2]
    rfl
  rw [h3, List.append_nil] at ha
  rw [ha, h1, List.nil_append]

/-- Witness for C1: a concrete session on a capacity-8 channel (write 3,
read 2, write 4, read 5) round-trips all samples. -/
theorem claim_C1_witness :
    (runOps chan8 demoOps).map (fun r => r.1 ++ contents r.2)
      = some (contents chan8 ++ writtenConcat demoOps) := by
  cases hrun : runOps chan8 demoOps with
  | none =>
    have hev : (runOps chan8 demoOps).isSome = true := by decide
    rw [hrun] at hev
    simp at hev
  | some r =>
    obtain ⟨outs, sf⟩ := r
    rw [Option.map_some']
    exact congrArg some (claim_C1_fifo_round_trip chan8 demoOps outs sf chan8_wf rfl hrun).1

/-- C2: on every open well-formed channel, readable + writable = N − 1
(the reserved-slot invariant, with no truncation), writable space is
`N − 1 − readable`; a write that fits succeeds in full and leaves at most
N − 1 samples buffered (the cursor never overruns unread data plus
capacity − 1), and a write exceeding the writable space blocks. -/
theorem claim_C2_reserved_slot (s : CircularBuffer) (h : WF s) (hc : s.closed = false) :
    availableRead s + availableWrite s = s.bufferSize - 1
    ∧ availableWrite s = s.bufferSize - 1 - availableRead s
    ∧ (∀ data : List Int, data.length ≤ availableWrite s →
        write s data = some (data.length, writeChunk s data)
        ∧ availableRead (writeChunk s data) = availableRead s + data.length
        ∧ availableRead (writeChunk s data) ≤ s.bufferSize - 1)
    ∧ (∀ data : List Int, availableWrite s < data.length → write s data = none) := by
  have hr := availableRead_le h
  refine ⟨by unfold availableWrite; omega, rfl, fun data hfit => ?_,
    fun data hbig => write_none_of_exceeds h hc hbig⟩
  refine ⟨write_eq_of_fits h hc hfit, availableRead_writeChunk h hfit, ?_⟩
  rw [availableRead_writeChunk h hfit]
  unfold availableWrite at hfit
  omega

/-- Witness for C2: the fresh capacity-8 channel has 7 writable slots and
writing 8 samples blocks. -/
theorem claim_C2_witness :
    availableRead chan8 + availableWrite chan8 = 7
    ∧ write chan8 (List.replicate 8 (1 : Int)) = none := by
  obtain ⟨h1, -, -, h4⟩ := claim_C2_reserved_slot chan8 chan8_wf rfl
  exact ⟨h1, h4 _ (by decide)⟩

/-- C3: on a closed well-formed channel, every write returns 0 (less than
any positive request) and changes nothing; a read requesting at least the
buffered count returns exactly the buffered samples and the next read
returns zero samples; `close` is idempotent; and neither write nor read
ever clears the closed flag (closed is one-way). -/
theorem claim_C3_close_semantics (s : CircularBuffer) (h : WF s) (hcl : s.closed = true)
    (n : Nat) (hn : availableRead s ≤ n) :
    (∀ data : List Int, write s data = some (0, s))
    ∧ (read s n = some (contents s, advanceRead s (availableRead s))
        ∧ (contents s).length = availableRead s
        ∧ (∀ m, read (advanceRead s (availableRead s)) m
            = some ([], advanceRead s (availableRead s))))
    ∧ close (close s) = close s
    ∧ (∀ data w s₃, write s data = some (w, s₃) → s₃.closed = true)
    ∧ (∀ m out s₄, read s m = some (out, s₄) → s₄.closed = true) := by
  have hread : read s n = some (contents s, advanceRead s (availableRead s)) := by
    rcases eq_or_lt_of_le hn with heq | hlt
    · rw [read_eq_of_le h (le_of_eq heq.symm), ← heq,
        List.take_of_length_le (le_of_eq contents_length)]
    · exact read_eq_of_closed h hcl hlt
  have hdrain : ∀ m, read (advanceRead s (availableRead s)) m
      = some ([], advanceRead s (availableRead s)) := by
    intro m
    exact read_drained (advanceRead_closed.trans hcl)
      (by rw [availableRead_advanceRead h (le_refl _)]; omega) m
  refine ⟨fun data => write_of_closed data hcl, ⟨hread, contents_length, hdrain⟩, rfl,
    ?_, ?_⟩
  · intro data w s₃ hw
    rw [write_of_closed data hcl] at hw
    injection hw with hw'
    injection hw' with h1 h2
    rw [← h2]
    exact hcl
  · intro m out s₄ hr
    rcases read_cases m h with ⟨_, heq⟩ | ⟨_, _, heq⟩ | ⟨_, hcf, _⟩
    · rw [heq] at hr
      injection hr with hr'
      injection hr' with h1 h2
      rw [← h2]
      exact advanceRead_closed.trans hcl
    · rw [heq] at hr
      injection hr with hr'
      injection hr' with h1 h2
      rw [← h2]
      exact advanceRead_closed.trans hcl
    · rw [hcf] at hcl
      cases hcl

set_option maxRecDepth 8000 in
/-- Witness for C3, the spec's concrete scenario 2: a capacity-256 channel
holding 200 unread samples is closed; a read requesting 1000 samples
returns exactly 200, and every subsequent read returns 0 samples. -/
theorem claim_C3_witness :
    (read s200c 1000).map (fun r => r.1.length) = some 200
    ∧ (∀ m, read (advanceRead s200c (availableRead s200c)) m
        = some ([], advanceRead s200c (availableRead s200c))) := by
  obtain ⟨-, ⟨hr, hlen, hnext⟩, -, -, -⟩ :=
    claim_C3_close_semantics s200c s200c_wf rfl 1000 (by decide)
  refine ⟨?_, hnext⟩
  rw [hr, Option.map_some']
  exact congrArg some (hlen.trans (by decide))

theorem testBit_top {t x : Nat} (h1 : 2 ^ t ≤ x) (h2 : x < 2 ^ (t + 1)) :
    x.testBit t = true := by
  rw [Nat.testBit_to_div_mod]
  have hp : 2 ^ (t + 1) = 2 ^ t * 2 := pow_succ 2 t
  have hdiv : x / 2 ^ t = 1 :=
    Nat.div_eq_of_lt_le (by omega) (by omega)
  simp [hdiv]

/-- The constructor's check `n & (n - 1) == 0` characterises the powers of
two among the positive naturals. -/
theorem pow2_iff_and_pred {n : Nat} (h1 : 1 ≤ n) :
    n &&& (n - 1) = 0 ↔ ∃ k, n = 2 ^ k := by
  constructor
  · intro hand
    refine ⟨n.size - 1, ?_⟩
    have hsz : 0 < n.size := Nat.size_pos.mpr h1
    have hle : 2 ^ (n.size - 1) ≤ n := Nat.lt_size.mp (by omega)
    have hlt : n < 2 ^ n.size := Nat.lt_size_self n
    have hlt' : n < 2 ^ (n.size - 1 + 1) := by
      rwa [show n.size - 1 + 1 = n.size from by omega]
    by_contra hne
    have hgt : 2 ^ (n.size - 1) < n := lt_of_le_of_ne hle (fun he => hne he.symm)
    have hb1 : n.testBit (n.size - 1) = true := testBit_top hle hlt'
    have hb2 : (n - 1).testBit (n.size - 1) = true := testBit_top (by omega) (by omega)
    have hb : (n &&& (n - 1)).testBit (n.size - 1) = true := by
      rw [Nat.testBit_land, hb1, hb2]
      rfl
    rw [hand] at hb
    simp [Nat.zero_testBit] at hb
  · rintro ⟨k, rfl⟩
    have := Nat.and_pow_two_sub_one_eq_mod (2 ^ k) k
    simpa using this

theorem mk_ok_of_zero : mkCircularBuffer 0 = Except.ok (freshChannel 0) := by
  unfold mkCircularBuffer
  rw [if_neg (by simp [Nat.zero_and])]

/-- Counterexample to C8 as stated: the requested capacity 0 is not a power
of two, yet the constructor's check `size & (size - 1)` evaluates to
`0 & 0xFFFFFFFFFFFFFFFF = 0` (size_t wraparound) and construction
succeeds instead of throwing. -/
theorem claim_C8_counterexample :
    mkCircularBuffer 0 = Except.ok (freshChannel 0) ∧ ¬ ∃ k : Nat, (0 : Nat) = 2 ^ k := by
  refine ⟨mk_ok_of_zero, ?_⟩
  rintro ⟨k, hk⟩
  exact absurd hk.symm (pow_pos (by norm_num : (0 : Nat) < 2) k).ne'

/-- C8 amended: for every size_t capacity, construction succeeds exactly
when the capacity is a power of two or the degenerate 0 (which slips past
the check); on success both cursors are 0 and the channel is open. -/
theorem claim_C8_amended (size : Nat) (hsz : size < SIZE_T_MOD) :
    ((∃ s, mkCircularBuffer size = Except.ok s) ↔ (size = 0 ∨ ∃ k, size = 2 ^ k))
    ∧ (∀ s, mkCircularBuffer size = Except.ok s →
        s.readPos = 0 ∧ s.writePos = 0 ∧ s.closed = false ∧ s.bufferSize = size) := by
  have hM : 0 < SIZE_T_MOD := by norm_num [SIZE_T_MOD]
  rcases Nat.eq_zero_or_pos size with rfl | hpos
  · refine ⟨⟨fun _ => Or.inl rfl, fun _ => ⟨freshChannel 0, mk_ok_of_zero⟩⟩, ?_⟩
    intro s hs
    rw [mk_ok_of_zero] at hs
    injection hs with hs'
    rw [← hs']
    exact ⟨rfl, rfl, rfl, rfl⟩
  · have hpred : (size + (SIZE_T_MOD - 1)) % SIZE_T_MOD = size - 1 := by
      rw [show size + (SIZE_T_MOD - 1) = (size - 1) + SIZE_T_MOD from by omega,
        Nat.add_mod_right, Nat.mod_eq_of_lt (by omega)]
    unfold mkCircularBuffer
    rw [hpred]
    by_cases hand : size &&& (size - 1) = 0
    · rw [if_neg (by simpa using hand)]
      refine ⟨⟨fun _ => Or.inr ((pow2_iff_and_pred hpos).mp hand), fun _ => ⟨_, rfl⟩⟩, ?_⟩
      intro s hs
      injection hs with hs'
      rw [← hs']
      exact ⟨rfl, rfl, rfl, rfl⟩
    · rw [if_pos (by simpa using hand)]
      constructor
      · constructor
        · rintro ⟨s, hs⟩
          cases hs
        · rintro (rfl | ⟨k, rfl⟩)
          · exact absurd hpos (by omega)
          · exact absurd ((pow2_iff_and_pred hpos).mpr ⟨k, rfl⟩) hand
      · intro s hs
        cases hs

/-- Witness for the amended C8: capacity 8 = 2^3 constructs successfully. -/
theorem claim_C8_witness : (mkCircularBuffer 8).isOk = true := by
  obtain ⟨s, hs⟩ :=
    (claim_C8_amended 8 (by norm_num [SIZE_T_MOD])).1.mpr (Or.inr ⟨3, by norm_num⟩)
  rw [hs]
  rfl

/-- Counterexample to C5 as stated: a successful transfer of 2 frames
(4 samples, all zero) is only logged — the capture loop skips the channel
write entirely, so the transferred frames are NOT written downstream
(0 samples written, channel unchanged), where the claim requires them to
be written with the silence merely logged. -/
theorem claim_C5_counterexample :
    captureStep 2 2 [0, 0, 0, 0] chan8 = some (chan8, 0)
    ∧ contents chan8 = []
    ∧ hasNonZeroSamples [0, 0, 0, 0] (2 * 2) = false :=
  ⟨rfl, rfl, rfl⟩

/-- C5 amended: a successful non-empty capture transfer is written into
the downstream channel only when the scanned prefix (the first
`min (frames·channels) 100` samples) contains a non-zero sample; an
all-silent transfer is logged as a diagnostic and dropped — nothing is
written downstream and no error is raised.  When samples are written,
they are appended to the downstream queue unchanged. -/
theorem claim_C5_amended (frames channels : Nat) (buf : List Int) (chan : CircularBuffer)
    (h : WF chan) (hc : chan.closed = false) (hf : 0 < frames) :
    (hasNonZeroSamples buf (frames * channels) = false →
      captureStep frames channels buf chan = some (chan, 0))
    ∧ (hasNonZeroSamples buf (frames * channels) = true →
      (buf.take (frames * channels)).length ≤ availableWrite chan →
      captureStep frames channels buf chan
        = some (writeChunk chan (buf.take (frames * channels)),
            (buf.take (frames * channels)).length)
      ∧ contents (writeChunk chan (buf.take (frames * channels)))
          = contents chan ++ buf.take (frames * channels)) := by
  constructor
  · intro hsil
    unfold captureStep
    rw [if_pos hf, hsil]
    simp
  · intro hnz hfit
    refine ⟨?_, contents_writeChunk h hfit⟩
    unfold captureStep
    rw [if_pos hf, hnz, if_pos rfl, write_eq_of_fits h hc hfit, Option.map_some']

/-- Witness for the amended C5: a 1-frame stereo transfer `[5, 6]` with
non-zero samples is appended to the downstream queue in full. -/
theorem claim_C5_witness :
    captureStep 1 2 [5, 6] chan8 = some (writeChunk chan8 [5, 6], 2)
    ∧ contents (writeChunk chan8 [5, 6]) = [5, 6] := by
  obtain ⟨hstep, hcont⟩ :=
    (claim_C5_amended 1 2 [5, 6] chan8 chan8_wf rfl (by decide)).2 (by decide) (by decide)
  exact ⟨hstep, hcont⟩

theorem outputLoopTrace_succ (p fuel : Nat) (s : CircularBuffer) :
    outputLoopTrace p (fuel + 1) s
      = match outputStep p s with
        | none => []
        | some OutStep.exit => []
        | some (OutStep.emit b s') => b :: outputLoopTrace p fuel s'
        | some (OutStep.retry s') => outputLoopTrace p fuel s' := rfl

/-- A full period is available: the loop reads it and emits it verbatim. -/
theorem outputStep_full {p : Nat} {s : CircularBuffer} (h : WF s)
    (hle : p ≤ availableRead s) :
    outputStep p s = some (OutStep.emit ((contents s).take p) (advanceRead s p)) := by
  have hlen : ((contents s).take p).length = p := by
    rw [List.length_take, contents_length]
    omega
  unfold outputStep
  rw [read_eq_of_le h hle, Option.map_some']
  rw [if_neg (by rw [hlen]; omega)]

/-- A short read on a closed channel: the loop exits (end of stream). -/
theorem outputStep_closed_short {p : Nat} {s : CircularBuffer} (h : WF s)
    (hcl : s.closed = true) (hlt : availableRead s < p) :
    outputStep p s = some OutStep.exit := by
  unfold outputStep
  rw [read_eq_of_closed h hcl hlt, Option.map_some']
  rw [if_pos (by rw [contents_length]; omega), if_pos (advanceRead_closed.trans hcl)]

/-- Too little data on an open channel: the read itself blocks. -/
theorem outputStep_open_short {p : Nat} {s : CircularBuffer} (h : WF s)
    (hcl : s.closed = false) (hlt : availableRead s < p) :
    outputStep p s = none := by
  unfold outputStep
  rw [read_none_of_open h hcl hlt]
  rfl

theorem outputLoopTrace_lengths (p : Nat) :
    ∀ (fuel : Nat) (s : CircularBuffer), WF s →
      ∀ b ∈ outputLoopTrace p fuel s, b.length = p := by
  intro fuel
  induction fuel with
  | zero =>
    intro s h b hb
    simp [outputLoopTrace] at hb
  | succ fuel ih =>
    intro s h b hb
    rw [outputLoopTrace_succ] at hb
    rcases read_cases p h with ⟨hle, _⟩ | ⟨hlt, hcl, _⟩ | ⟨hlt, hcl, _⟩
    · rw [outputStep_full h hle] at hb
      simp only [List.mem_cons] at hb
      rcases hb with rfl | hb
      · rw [List.length_take, contents_length]
        omega
      · exact ih (advanceRead s p) (advanceRead_wf h) b hb
    · rw [outputStep_closed_short h hcl hlt] at hb
      simp at hb
    · rw [outputStep_open_short h hcl hlt] at hb
      simp at hb

/-- C6: the output stage writes two periods of silence to the device
before any real write; every block it writes is a full period (never a
partial one — a short read is padded or ends the loop); and a short read
from the upstream channel only ever happens because the channel is
closed, in which case the loop exits as a clean end-of-stream rather than
writing or reporting a hardware fault. -/
theorem claim_C6_output_stage (p fuel : Nat) (s : CircularBuffer) (h : WF s) :
    (outputTrace p fuel s).take 2 = [List.replicate p (0 : Int), List.replicate p (0 : Int)]
    ∧ (∀ b ∈ outputTrace p fuel s, b.length = p)
    ∧ (∀ data s', read s p = some (data, s') → data.length < p →
        s'.closed = true ∧ outputStep p s = some OutStep.exit) := by
  refine ⟨rfl, ?_, ?_⟩
  · intro b hb
    unfold outputTrace at hb
    simp only [List.mem_cons] at hb
    rcases hb with rfl | rfl | hb
    · simp
    · simp
    · exact outputLoopTrace_lengths p fuel s h b hb
  · intro data s' hread hshort
    rcases read_cases p h with ⟨hle, heq⟩ | ⟨hlt, hcl, heq⟩ | ⟨hlt, hcl, heq⟩
    · exfalso
      rw [heq] at hread
      injection hread with hr'
      injection hr' with h1 h2
      rw [← h1, List.length_take, contents_length] at hshort
      omega
    · rw [heq] at hread
      injection hread with hr'
      injection hr' with h1 h2
      refine ⟨?_, outputStep_closed_short h hcl hlt⟩
      rw [← h2]
      exact advanceRead_closed.trans hcl
    · rw [heq] at hread
      cases hread

/-- Witness for C6 at a concrete period, fuel and channel. -/
theorem claim_C6_witness :
    (outputTrace 2 2 chan8).take 2
      = [List.replicate 2 (0 : Int), List.replicate 2 (0 : Int)]
    ∧ (∀ b ∈ outputTrace 2 2 chan8, b.length = 2)
    ∧ (∀ data s', read chan8 2 = some (data, s') → data.length < 2 →
        s'.closed = true ∧ outputStep 2 chan8 = some OutStep.exit) :=
  claim_C6_output_stage 2 2 chan8 chan8_wf

/-- C4 (code-bug evidence): `reportError` records the error, moves the
global state to Error and calls `recoverFromError` — but it still holds
`errorMutex`, and `recoverFromError` begins by locking the same
non-recursive mutex, so the call never completes: the second component is
`false` (no completion), the state reached is Error with the mutex still
held, and the state never becomes Running.  In isolation (mutex free)
the recovery dispatch would indeed report success for an ALSA xrun, as
the claim describes — the deadlock is what prevents it. -/
theorem claim_C4_report_deadlock :
    (reportError ErrorType.ERROR_ALSA_XRUN initHandler).2 = false
    ∧ (reportError ErrorType.ERROR_ALSA_XRUN initHandler).1.globalState
        = AppState.STATE_ERROR
    ∧ (reportError ErrorType.ERROR_ALSA_XRUN initHandler).1.errorMutexHeld = true
    ∧ (recoverFromError { initHandler with lastError := ErrorType.ERROR_ALSA_XRUN }).2
        = some true := by
  decide

/-- C7 (code-bug evidence): in a run of three windows with no pings after
`startWatchdog`, the first window is quiet (the flag starts true); at the
end of the second window the watchdog reports the fault but then
deadlocks inside `reportError` (fault with `completed = false`), so the
ping flag is never reset and the third missed window is never checked —
contradicting "exactly once per missed window … resumes monitoring". -/
theorem claim_C7_watchdog_stall :
    watchdogRun (startWatchdog initHandler) [false, false, false]
      = [WindowResult.quiet, WindowResult.fault false] := by
  decide

/-- C10: `startWatchdog` initialises the ping flag to true, so the first
window never reports a fault, whatever pings arrive; and a run with no
pings shows the first possible fault occurring at the end of the second
window. -/
theorem claim_C10_first_window_grace :
    (∀ (s : ErrorHandler) (a : Bool) (rest : List Bool),
        (watchdogRun (startWatchdog s) (a :: rest)).head? = some WindowResult.quiet)
    ∧ watchdogRun (startWatchdog initHandler) [false, false]
        = [WindowResult.quiet, WindowResult.fault false] := by
  constructor
  · intro s a rest
    cases a <;> simp [watchdogRun, startWatchdog, pingWatchdog]
  · decide

theorem cround_zero : cround 0 = 0 := by
  unfold cround
  rw [if_pos (le_refl (0 : ℝ)), zero_add]
  norm_num [Int.floor_eq_zero_iff]

theorem cround_neg (x : ℝ) : cround (-x) = -cround x := by
  rcases lt_trichotomy x 0 with hx | rfl | hx
  · have h1 : ¬ (0 ≤ x) := not_le.mpr hx
    have h2 : 0 ≤ -x := by linarith
    unfold cround
    rw [if_pos h2, if_neg h1, neg_neg]
  · rw [neg_zero, cround_zero, neg_zero]
  · have h1 : 0 ≤ x := le_of_lt hx
    have h2 : ¬ (0 ≤ -x) := not_le.mpr (by linarith)
    unfold cround
    rw [if_pos h1, if_neg h2, neg_neg]

theorem clampDelay_neg (d : Int) : clampDelay (-d) = -clampDelay d := by
  unfold clampDelay MAX_STEERING_DELAY
  split_ifs <;> omega

theorem clampDelay_zero : clampDelay 0 = 0 := by
  decide

theorem delaySamples_90 : delaySamples 90 = 0 := by
  unfold delaySamples angleRad
  rw [show ((90 : Int) : ℝ) - 90 = 0 from by norm_num, zero_mul, zero_div, Real.sin_zero,
    mul_zero, zero_div, zero_mul]

theorem delaySamples_neg (a : Int) : delaySamples (180 - a) = -delaySamples a := by
  unfold delaySamples angleRad
  have h : ((180 - a : Int) : ℝ) - 90 = -(((a : Int) : ℝ) - 90) := by
    push_cast
    ring
  rw [h, neg_mul, neg_div, Real.sin_neg]
  ring

/-- C9: the precomputed steering-delay table (built from microphone
spacing, sound speed and sample rate, rounded with C `round` and clamped
to ±MAX_STEERING_DELAY, here modelled over exact reals) is antisymmetric
about broadside: `delay 90 = 0` and `delay a = -(delay (180 - a))` for
every integer angle in [0, 180] — exactly, so in particular within any
rounding tolerance. -/
theorem claim_C9_delay_table_symmetry (a : Int) (h0 : 0 ≤ a) (h1 : a ≤ 180) :
    delayPerAngle 90 = 0 ∧ delayPerAngle a = -delayPerAngle (180 - a) := by
  constructor
  · unfold delayPerAngle
    rw [delaySamples_90, cround_zero, clampDelay_zero]
  · unfold delayPerAngle
    rw [delaySamples_neg, cround_neg, clampDelay_neg, neg_neg]

/-- Witness for C9 at angle 30: `delay 90 = 0` and `delay 30 = -delay 150`. -/
theorem claim_C9_witness :
    delayPerAngle 90 = 0 ∧ delayPerAngle 30 = -delayPerAngle 150 := by
  have h := claim_C9_delay_table_symmetry 30 (by norm_num) (by norm_num)
  refine ⟨h.1, ?_⟩
  have h2 := h.2
  norm_num at h2
  exact h2

end DelaySum
